import Mathlib

set_option maxHeartbeats 1000000

/-!
Shallow embedding of the component-catalog pipeline of the claude-codecave
dashboard: the data-generation script (`generateData`), the list endpoint
(`GET /api/components`), the detail endpoint (`GET /api/component/[...path]`)
and the save endpoint (`PUT /api/component/[...path]`).
-/

namespace Codecave

/-! ## Data model

`Component` mirrors the `Component` interface of the data-generation script:
`{ id, name, type, description, path, content }` with `type` drawn from the
closed union `'agent' | 'skill' | 'command' | 'mcp'`. -/

inductive ComponentType where
  | agent
  | skill
  | command
  | mcp
deriving DecidableEq

structure Component where
  id : String
  name : String
  type : ComponentType
  description : String
  path : String
  content : String
deriving DecidableEq

/-- JSON values, for the parsed `.mcp.json` config. Numbers are modelled as
integers (no claim involves a numeric field). -/
inductive JsonVal where
  | null
  | bool (b : Bool)
  | num (n : Int)
  | str (s : String)
  | arr (elems : List JsonVal)
  | obj (fields : List (String × JsonVal))

/-! ## String helpers mirroring the JavaScript string methods used

These are written as structural recursions over the character list so that
concrete instances reduce inside the kernel. -/

/-- Whether `s` starts with `pat` (on character lists). -/
def charsStartWith : List Char → List Char → Bool
  | _, [] => true
  | [], _ :: _ => false
  | c :: cs, p :: ps => c = p && charsStartWith cs ps

/-- Whether the string `s` ends with `suffix` (JS `file.endsWith('.md')`). -/
def strEndsWith (s suffix : String) : Bool :=
  charsStartWith s.data.reverse suffix.data.reverse

/-- JS `s.split(sep)` for a one-character separator: keeps empty pieces,
`"".split(sep) = [""]`. -/
def splitOnChar (s : String) (sep : Char) : List String :=
  go [] s.data
where
  go (cur : List Char) : List Char → List String
    | [] => [String.mk cur.reverse]
    | c :: cs => if c = sep then String.mk cur.reverse :: go [] cs else go (c :: cur) cs

/-- JS `s.replace(pat, repl)` with a *string* pattern: replaces only the
first occurrence; with an empty pattern it prepends `repl`. -/
def replaceFirst (s pat repl : String) : String :=
  if pat = "" then repl ++ s
  else String.mk (go s.data)
where
  go : List Char → List Char
    | [] => []
    | c :: cs =>
      if charsStartWith (c :: cs) pat.data then
        repl.data ++ (c :: cs).drop pat.data.length
      else c :: go cs

/-- JS `s.replace(/a/g, b)` for one-character pattern and replacement. -/
def replaceChar (s : String) (a b : Char) : String :=
  String.mk (s.data.map (fun c => if c = a then b else c))

/-- JS `name.charAt(0).toUpperCase() + name.slice(1)` (ASCII case mapping). -/
def capFirst (s : String) : String :=
  match s.data with
  | [] => ""
  | c :: cs => String.mk (c.toUpper :: cs)

/-- JS `s.split(' ').map(w => w.charAt(0).toUpperCase() + w.slice(1)).join(' ')`. -/
def capWords (s : String) : String :=
  String.intercalate " " ((splitOnChar s ' ').map capFirst)

/-! ## The description regex

All three markdown scans run `content.match(/##\s*(?:Purpose|Description)[:\s]*([^\n]+)/i)`
(the skills and commands scans spell the alternation `Description|Purpose`,
which is equivalent since no text matches both branches) and use capture
group 1.  The regex is *not* anchored to a line start.  We model the regex
engine's leftmost-match search directly on the character list. -/

/-- JS `\s` character class (the ASCII/Latin-1 members; other Unicode space
separators never occur in the repository's content). -/
def jsWS (c : Char) : Bool :=
  c = ' ' || c = '\t' || c = '\n' || c = '\r' || c = '\x0b' || c = '\x0c' || c = '\xa0'

/-- The `[:\s]` character class. -/
def colonWS (c : Char) : Bool :=
  c = ':' || jsWS c

/-- Case-insensitive literal match of a (lowercase) keyword against the head
of the text; returns the remaining text on success. -/
def matchCI : List Char → List Char → Option (List Char)
  | [], t => some t
  | _ :: _, [] => none
  | k :: ks, c :: cs => if c.toLower = k then matchCI ks cs else none

/-- Greedy `([^\n]+)` capture: the maximal run of non-newline characters. -/
def capRun (t : List Char) : List Char :=
  t.takeWhile (fun c => c ≠ '\n')

/-- Backtracking over the greedy `[:\s]*`: try star-lengths `j, j-1, …, 0`
until `([^\n]+)` can match at least one character. -/
def backtrackCap (t : List Char) : Nat → Option (List Char)
  | 0 =>
    match t with
    | [] => none
    | c :: cs => if c = '\n' then none else some (capRun (c :: cs))
  | j + 1 =>
    match t.drop (j + 1) with
    | [] => backtrackCap t j
    | c :: cs => if c = '\n' then backtrackCap t j else some (capRun (c :: cs))

/-- Attempt `##\s*(?:Purpose|Description)[:\s]*([^\n]+)` (case-insensitive)
at the start of `s`; returns capture group 1 on success.  The `\s*` after
`##` is deterministic (the keyword starts with a letter, never whitespace),
and `[:\s]*` backtracks from its greedy maximum. -/
def matchAt (s : List Char) : Option String :=
  match s with
  | '#' :: '#' :: rest =>
    let r2 := rest.dropWhile jsWS
    match (matchCI "purpose".data r2).orElse (fun _ => matchCI "description".data r2) with
    | some t => (backtrackCap t (t.takeWhile colonWS).length).map String.mk
    | none => none
  | _ => none

/-- Leftmost match: scan every start position left to right. -/
def firstMatchAux : List Char → Option String
  | [] => none
  | c :: cs => (matchAt (c :: cs)).orElse (fun _ => firstMatchAux cs)

/-- `content.match(/##\s*(?:Purpose|Description)[:\s]*([^\n]+)/i)?.[1]`. -/
def descMatch (s : String) : Option String :=
  firstMatchAux s.data

/-- JS `descMatch?.[1] || dflt`: the default is used when the match is absent
or the capture is the empty string (`||` treats `""` as falsy; the capture is
`[^\n]+` so it is never empty, but we model `||` faithfully). -/
def orDefault (o : Option String) (dflt : String) : String :=
  match o with
  | some s => if s = "" then dflt else s
  | none => dflt

/-! ## JSON helpers mirroring the JavaScript JSON / object operations -/

/-- Property access `obj.key` on a parsed JSON value: a field lookup on
objects, `undefined` (`none`) on anything else.  (`JSON.parse` keeps the last
duplicate key, so parsed objects are treated as duplicate-free.) -/
def jsGetField : JsonVal → String → Option JsonVal
  | .obj fields, key => lookupField fields key
  | _, _ => none
where
  lookupField : List (String × JsonVal) → String → Option JsonVal
    | [], _ => none
    | (k, v) :: fs, key => if k = key then some v else lookupField fs key

/-- JS truthiness of a parsed JSON value (`if (mcp.mcpServers)`). -/
def truthy : JsonVal → Bool
  | .null => false
  | .bool b => b
  | .num n => n != 0
  | .str s => s ≠ ""
  | .arr _ => true
  | .obj _ => true

/-- `Object.entries(v)`: the field list for objects, indexed characters for
strings, empty for the other primitives. -/
def jsEntries : JsonVal → List (String × JsonVal)
  | .obj fields => fields
  | .str s => s.data.enum.map (fun p => (toString p.1, JsonVal.str (String.mk [p.2])))
  | _ => []

mutual

/-- `String(v)` as used inside a template literal. -/
def jsToString : JsonVal → String
  | .null => "null"
  | .bool true => "true"
  | .bool false => "false"
  | .num n => toString n
  | .str s => s
  | .obj _ => "[object Object]"
  | .arr xs => String.intercalate "," (jsToStringElems xs)

def jsToStringElems : List JsonVal → List String
  | [] => []
  | .null :: xs => "" :: jsToStringElems xs
  | x :: xs => jsToString x :: jsToStringElems xs

end

/-- `` `HTTP: ${(config as any).url}` `` interpolates `undefined` when the
field is absent. -/
def jsTemplateOpt : Option JsonVal → String
  | none => "undefined"
  | some v => jsToString v

/-- `(config as any).type === 'http'`: strict equality against the string
literal `'http'`. -/
def isHttpType : Option JsonVal → Bool
  | some (.str s) => s = "http"
  | _ => false

/-- Lowercase hex digit, for `JSON.stringify` control-character escapes. -/
def hexDigit (n : Nat) : Char :=
  if n < 10 then Char.ofNat (48 + n) else Char.ofNat (87 + n)

/-- One character of a `JSON.stringify` string body. -/
def escapeChar (c : Char) : String :=
  if c = '"' then "\\\""
  else if c = '\\' then "\\\\"
  else if c = '\n' then "\\n"
  else if c = '\r' then "\\r"
  else if c = '\t' then "\\t"
  else if c = '\x08' then "\\b"
  else if c = '\x0c' then "\\f"
  else if c.toNat < 32 then "\\u00" ++ String.mk [hexDigit (c.toNat / 16), hexDigit (c.toNat % 16)]
  else String.mk [c]

/-- `JSON.stringify` of a string. -/
def quoteJson (s : String) : String :=
  "\"" ++ String.join (s.data.map escapeChar) ++ "\""

mutual

/-- `JSON.stringify(v, null, 2)`, carried out with the indentation string of
the enclosing level (`ind = ""` at the top call). -/
def stringifyV (ind : String) : JsonVal → String
  | .null => "null"
  | .bool true => "true"
  | .bool false => "false"
  | .num n => toString n
  | .str s => quoteJson s
  | .arr [] => "[]"
  | .arr (x :: xs) =>
    "[\n" ++ String.intercalate ",\n" (stringifyElems (ind ++ "  ") (x :: xs))
      ++ "\n" ++ ind ++ "]"
  | .obj [] => "\x7b\x7d"
  | .obj (f :: fs) =>
    "\x7b\n" ++ String.intercalate ",\n" (stringifyFields (ind ++ "  ") (f :: fs))
      ++ "\n" ++ ind ++ "\x7d"

def stringifyElems (ind : String) : List JsonVal → List String
  | [] => []
  | x :: xs => (ind ++ stringifyV ind x) :: stringifyElems ind xs

def stringifyFields (ind : String) : List (String × JsonVal) → List String
  | [] => []
  | (k, v) :: fs => (ind ++ quoteJson k ++ ": " ++ stringifyV ind v) :: stringifyFields ind fs

end

/-! ## The catalog builder (`generateData`)

Filesystem interaction is abstracted: each `readdir` result is an
`Option (List String)` (`none` = the call threw) and each `readFile` is a
function `String → Option String` (`none` = the call threw).  The script's
final artifact write and item-count log are outside every claim; the build's
result is the `components` list (plus the `console.error` log lines). -/

structure BuildInput where
  /-- `readdir(join(rootDir, 'agents'))`, or `none` if it threw. -/
  agentsListing : Option (List String)
  /-- `readFile(join(agentsDir, file), 'utf-8')`, or `none` if it threw. -/
  agentRead : String → Option String
  /-- `readdir(join(rootDir, 'skills'))`, or `none` if it threw. -/
  skillsListing : Option (List String)
  /-- `readFile(join(skillsDir, dir, 'SKILL.md'), 'utf-8')`, or `none` if it threw. -/
  skillRead : String → Option String
  /-- `readdir(join(rootDir, 'commands'))`, or `none` if it threw. -/
  commandsListing : Option (List String)
  /-- `readFile(join(commandsDir, file), 'utf-8')`, or `none` if it threw. -/
  commandRead : String → Option String
  /-- `JSON.parse(await readFile(join(rootDir, '.mcp.json'), 'utf-8'))`, or
  `none` if the read or the parse threw. -/
  mcpParsed : Option JsonVal

/-- The component pushed for one agent file. -/
def mkAgent (file content : String) : Component :=
  let base := replaceFirst file ".md" ""
  { id := "agent-" ++ base
    name := capFirst (replaceChar base '-' ' ')
    type := .agent
    description := orDefault (descMatch content) "AI agent for specialized tasks"
    path := "agents/" ++ file
    content := content }

/-- The component pushed for one skill directory. -/
def mkSkill (dir content : String) : Component :=
  { id := "skill-" ++ dir
    name := capWords (replaceChar dir '-' ' ')
    type := .skill
    description := orDefault (descMatch content) "Pattern/skill for development"
    path := "skills/" ++ dir ++ "/SKILL.md"
    content := content }

/-- The component pushed for one command file. -/
def mkCommand (file content : String) : Component :=
  let base := replaceFirst file ".md" ""
  { id := "command-" ++ base
    name := "/" ++ base
    type := .command
    description := orDefault (descMatch content) "Scaffold command"
    path := "commands/" ++ file
    content := content }

/-- The component pushed for one `mcpServers` entry. -/
def mkMcp (nm : String) (cfg : JsonVal) : Component :=
  { id := "mcp-" ++ nm
    name := nm
    type := .mcp
    description :=
      if isHttpType (jsGetField cfg "type") then
        "HTTP: " ++ jsTemplateOpt (jsGetField cfg "url")
      else "stdio server"
    path := ".mcp.json"
    content := stringifyV "" cfg }

/-- The agents `for` loop.  The single `try/catch` wraps the whole loop, so a
`readFile` failure aborts the remaining files (components already pushed are
kept) and logs once. -/
def agentsScanFiles : List String → (String → Option String) → List Component × List String
  | [], _ => ([], [])
  | f :: fs, read =>
    if strEndsWith f ".md" then
      match read f with
      | some content =>
        let r := agentsScanFiles fs read
        (mkAgent f content :: r.1, r.2)
      | none => ([], ["Error reading agents:"])
    else agentsScanFiles fs read

/-- The skills `for` loop.  The inner empty `catch {}` makes a `SKILL.md`
read failure skip only that directory, with no log line. -/
def skillsScanDirs : List String → (String → Option String) → List Component
  | [], _ => []
  | d :: ds, read =>
    match read d with
    | some content => mkSkill d content :: skillsScanDirs ds read
    | none => skillsScanDirs ds read

/-- The commands `for` loop: same abort-on-first-failure shape as agents. -/
def commandsScanFiles : List String → (String → Option String) → List Component × List String
  | [], _ => ([], [])
  | f :: fs, read =>
    if strEndsWith f ".md" then
      match read f with
      | some content =>
        let r := commandsScanFiles fs read
        (mkCommand f content :: r.1, r.2)
      | none => ([], ["Error reading commands:"])
    else commandsScanFiles fs read

/-- The MCP block: read + parse `.mcp.json`, then iterate
`Object.entries(mcp.mcpServers)` when `mcp.mcpServers` is truthy. -/
def mcpScan : Option JsonVal → List Component × List String
  | none => ([], ["Error reading MCP config:"])
  | some j =>
    match jsGetField j "mcpServers" with
    | some v =>
      if truthy v then ((jsEntries v).map (fun p => mkMcp p.1 p.2), [])
      else ([], [])
    | none => ([], [])

/-- The agents block including its outer `try/catch` (a `readdir` failure
gives no components and one log line). -/
def agentsSource (listing : Option (List String)) (read : String → Option String) :
    List Component × List String :=
  match listing with
  | none => ([], ["Error reading agents:"])
  | some files => agentsScanFiles files read

/-- The skills block including its outer `try/catch`. -/
def skillsSource (listing : Option (List String)) (read : String → Option String) :
    List Component × List String :=
  match listing with
  | none => ([], ["Error reading skills:"])
  | some dirs => (skillsScanDirs dirs read, [])

/-- The commands block including its outer `try/catch`. -/
def commandsSource (listing : Option (List String)) (read : String → Option String) :
    List Component × List String :=
  match listing with
  | none => ([], ["Error reading commands:"])
  | some files => commandsScanFiles files read

/-- `generateData`: the four scans in order (agents, skills, commands, mcp),
each wrapped in its own `try/catch`; returns the `components` array and the
`console.error` log lines. -/
def generateDataFull (inp : BuildInput) : List Component × List String :=
  let a := agentsSource inp.agentsListing inp.agentRead
  let s := skillsSource inp.skillsListing inp.skillRead
  let c := commandsSource inp.commandsListing inp.commandRead
  let m := mcpScan inp.mcpParsed
  (a.1 ++ s.1 ++ c.1 ++ m.1, a.2 ++ s.2 ++ c.2 ++ m.2)

/-- The `components` array serialized into the catalog artifact. -/
def generateData (inp : BuildInput) : List Component :=
  (generateDataFull inp).1

/-! ## Path resolution used by the save endpoint

`resolve(process.cwd(), '..')` and `join(rootDir, path)` for an absolute
`cwd`: POSIX segment normalization (`.` dropped, `..` pops, excess `..`
above the root dropped). -/

def splitSegs (s : String) : List String :=
  (splitOnChar s '/').filter (fun x => x ≠ "")

def normSegs : List String → List String → List String
  | acc, [] => acc.reverse
  | acc, "." :: rest => normSegs acc rest
  | acc, ".." :: rest => normSegs (acc.drop 1) rest
  | acc, seg :: rest => normSegs (seg :: acc) rest

/-- `join(a, b)` for an absolute `a` (also `resolve(a, b)` for relative `b`). -/
def joinAbs (a b : String) : String :=
  "/" ++ String.intercalate "/" (normSegs [] (splitSegs (a ++ "/" ++ b)))

/-- `resolve(cwd, '..')`: the project root, one directory above the server's
working directory. -/
def parentDir (cwd : String) : String :=
  joinAbs cwd ".."

/-- Whether `target` lies within the directory `root`. -/
def contained (root target : String) : Bool :=
  target = root || charsStartWith target.data (root ++ "/").data

/-! ## The catalog server -/

/-- An abstract filesystem: absolute path to file content. -/
abbrev FS := String → Option String

structure HttpError where
  statusCode : Nat
  message : String
deriving DecidableEq

structure ItemContent where
  path : String
  content : String
deriving DecidableEq

structure SaveResult where
  success : Bool
  path : String
deriving DecidableEq

/-- Stripped list entry: the rest-spread `({ content, ...rest }) => rest`
leaves `id, name, type, description, path` and no `content` field. -/
structure ComponentMeta where
  id : String
  name : String
  type : ComponentType
  description : String
  path : String
deriving DecidableEq

def stripContent (c : Component) : ComponentMeta :=
  { id := c.id, name := c.name, type := c.type
    description := c.description, path := c.path }

/-- `GET /api/components`: `componentsData.map(({ content, ...rest }) => rest)`. -/
def listItems (cat : List Component) : List ComponentMeta :=
  cat.map stripContent

/-- `GET /api/component/[...path]`: `!path` rejects a missing or empty route
param; `componentsData.find(c => c.path === path)` is an exact first-match
lookup into the loaded catalog (no filesystem access). -/
def getItemContent (cat : List Component) (pathParam : Option String) :
    Except HttpError ItemContent :=
  match pathParam with
  | none => .error ⟨400, "Path required"⟩
  | some p =>
    if p = "" then .error ⟨400, "Path required"⟩
    else
      match cat.find? (fun c => decide (c.path = p)) with
      | some c => .ok ⟨p, c.content⟩
      | none => .error ⟨404, "Component not found"⟩

/-- `PUT /api/component/[...path]`: after the two falsy checks, writes
`content` at `join(resolve(cwd, '..'), path)`.  `writable` abstracts whether
the `writeFile` call succeeds at a given absolute path; on failure the
filesystem is unchanged and a 500 is thrown.  Returns the (possibly updated)
filesystem and the HTTP outcome. -/
def saveItemContent (cwd : String) (pathParam contentParam : Option String)
    (fs : FS) (writable : String → Bool) : FS × Except HttpError SaveResult :=
  match pathParam with
  | none => (fs, .error ⟨400, "Path required"⟩)
  | some p =>
    if p = "" then (fs, .error ⟨400, "Path required"⟩)
    else
      match contentParam with
      | none => (fs, .error ⟨400, "Content required"⟩)
      | some c =>
        if c = "" then (fs, .error ⟨400, "Content required"⟩)
        else
          let filePath := joinAbs (parentDir cwd) p
          if writable filePath then
            (fun q => if q = filePath then some c else fs q, .ok ⟨true, p⟩)
          else (fs, .error ⟨500, "Failed to save file"⟩)

/-- The server's state: the filesystem plus the catalog loaded from the
artifact at startup (`import componentsData from '~/data/components.json'`). -/
structure ServerState where
  fs : FS
  catalog : List Component

/-- The PUT handler acting on the server state: only the filesystem can
change; the loaded catalog is not an input or output of the write. -/
def handlePut (cwd : String) (st : ServerState) (pathParam contentParam : Option String)
    (writable : String → Bool) : ServerState × Except HttpError SaveResult :=
  let r := saveItemContent cwd pathParam contentParam st.fs writable
  ({ st with fs := r.1 }, r.2)

/-- The GET detail handler acting on the server state. -/
def handleGet (st : ServerState) (pathParam : Option String) :
    Except HttpError ItemContent :=
  getItemContent st.catalog pathParam

/-- The GET list handler acting on the server state. -/
def handleList (st : ServerState) : List ComponentMeta :=
  listItems st.catalog

/-! ## Positional description-extraction predicate

`descSpec text dflt desc` says: `desc` is the capture of the leftmost
position of `text` where the description pattern matches (run through the
`|| default` fallback), or the default when the pattern matches nowhere. -/

def descSpec (text dflt desc : String) : Prop :=
  (∃ i cap, matchAt (text.data.drop i) = some cap ∧
      (∀ j < i, matchAt (text.data.drop j) = none) ∧
      desc = (if cap = "" then dflt else cap)) ∨
  ((∀ i, matchAt (text.data.drop i) = none) ∧ desc = dflt)

/-- Modelled from the spec's words for the original claim C8 (for comparison
only — the code does not behave this way): the description comes from "a
line matching `## Purpose` or `## Description` … and capture the remainder
of that line", i.e. the pattern must start at the beginning of a line. -/
def specLineDesc (text : String) : Option String :=
  (splitOnChar text '\n').findSome? (fun line => matchAt line.data)

/-! ## Concrete values used by witnesses and scenario claims -/

/-- The agent file text of the end-to-end scenario. -/
def c0text : String :=
  "# Code Reviewer\n\n## Purpose: Reviews code for bugs\n\nReview carefully.\n"

/-- Build input for the agent end-to-end scenario: `agents/` holds exactly
`code-reviewer.md`; the other sources are empty. -/
def inp7 : BuildInput :=
  { agentsListing := some ["code-reviewer.md"]
    agentRead := fun f => if f = "code-reviewer.md" then some c0text else none
    skillsListing := some []
    skillRead := fun _ => none
    commandsListing := some []
    commandRead := fun _ => none
    mcpParsed := some (.obj []) }

/-- Build input for the MCP end-to-end scenario:
`.mcp.json = {"mcpServers": {"docs": {"type": "http", "url": "https://x"}}}`. -/
def inp9 : BuildInput :=
  { agentsListing := some []
    agentRead := fun _ => none
    skillsListing := some []
    skillRead := fun _ => none
    commandsListing := some []
    commandRead := fun _ => none
    mcpParsed := some (.obj [("mcpServers",
      .obj [("docs", .obj [("type", .str "http"), ("url", .str "https://x")])])]) }

/-- Build input with one non-http MCP server entry. -/
def inp9s : BuildInput :=
  { inp9 with mcpParsed := some (.obj [("mcpServers",
      .obj [("local", .obj [("command", .str "npx")])])]) }

/-- Build input with valid/invalid mixes: agents `a.md` (valid), `bad.md`
(unreadable), `c.md` (valid); skills `good` (valid), `bad` (unreadable). -/
def inp2 : BuildInput :=
  { agentsListing := some ["a.md", "bad.md", "c.md"]
    agentRead := fun f => if f = "a.md" then some "A" else if f = "c.md" then some "C" else none
    skillsListing := some ["good", "bad"]
    skillRead := fun d => if d = "good" then some "S" else none
    commandsListing := some []
    commandRead := fun _ => none
    mcpParsed := some (.obj []) }

/-- Build input whose single agent file has `## Purpose:` only mid-line. -/
def inpMid : BuildInput :=
  { agentsListing := some ["m.md"]
    agentRead := fun f => if f = "m.md" then some "Intro ## Purpose: hacks" else none
    skillsListing := some []
    skillRead := fun _ => none
    commandsListing := some []
    commandRead := fun _ => none
    mcpParsed := some (.obj []) }

/-- A small concrete catalog. -/
def cat1 : List Component :=
  [{ id := "agent-a", name := "A", type := .agent, description := "d1"
     path := "agents/a.md", content := "AAA" }]

/-- A catalog with two entries sharing one `path` and differing `content`
(the shape every pair of MCP items has). -/
def cat2 : List Component :=
  [{ id := "mcp-one", name := "one", type := .mcp, description := "stdio server"
     path := ".mcp.json", content := "first" },
   { id := "mcp-two", name := "two", type := .mcp, description := "stdio server"
     path := ".mcp.json", content := "second" }]

/-! ## Helper lemmas about the scans -/

theorem mkAgent_type (f ct : String) : (mkAgent f ct).type = .agent := rfl

theorem mkSkill_type (d ct : String) : (mkSkill d ct).type = .skill := rfl

theorem mkCommand_type (f ct : String) : (mkCommand f ct).type = .command := rfl

theorem mkMcp_type (nm : String) (cfg : JsonVal) : (mkMcp nm cfg).type = .mcp := rfl

theorem mem_agentsScanFiles {files : List String} {read : String → Option String}
    {c : Component} (h : c ∈ (agentsScanFiles files read).1) :
    ∃ f ct, strEndsWith f ".md" = true ∧ read f = some ct ∧ c = mkAgent f ct := by
  induction files with
  | nil => simp [agentsScanFiles] at h
  | cons f fs ih =>
    by_cases hmd : strEndsWith f ".md"
    · cases hr : read f with
      | some ct =>
        rw [agentsScanFiles, if_pos hmd, hr] at h
        simp only [List.mem_cons] at h
        rcases h with h | h
        · exact ⟨f, ct, hmd, hr, h⟩
        · exact ih h
      | none =>
        rw [agentsScanFiles, if_pos hmd, hr] at h
        simp at h
    · rw [agentsScanFiles, if_neg hmd] at h
      exact ih h

theorem mem_skillsScanDirs {dirs : List String} {read : String → Option String}
    {c : Component} (h : c ∈ skillsScanDirs dirs read) :
    ∃ d ct, read d = some ct ∧ c = mkSkill d ct := by
  induction dirs with
  | nil => simp [skillsScanDirs] at h
  | cons d ds ih =>
    cases hr : read d with
    | some ct =>
      rw [skillsScanDirs, hr] at h
      simp only [List.mem_cons] at h
      rcases h with h | h
      · exact ⟨d, ct, hr, h⟩
      · exact ih h
    | none =>
      rw [skillsScanDirs, hr] at h
      exact ih h

theorem mem_commandsScanFiles {files : List String} {read : String → Option String}
    {c : Component} (h : c ∈ (commandsScanFiles files read).1) :
    ∃ f ct, strEndsWith f ".md" = true ∧ read f = some ct ∧ c = mkCommand f ct := by
  induction files with
  | nil => simp [commandsScanFiles] at h
  | cons f fs ih =>
    by_cases hmd : strEndsWith f ".md"
    · cases hr : read f with
      | some ct =>
        rw [commandsScanFiles, if_pos hmd, hr] at h
        simp only [List.mem_cons] at h
        rcases h with h | h
        · exact ⟨f, ct, hmd, hr, h⟩
        · exact ih h
      | none =>
        rw [commandsScanFiles, if_pos hmd, hr] at h
        simp at h
    · rw [commandsScanFiles, if_neg hmd] at h
      exact ih h

theorem mem_mcpScan {j : Option JsonVal} {c : Component} (h : c ∈ (mcpScan j).1) :
    ∃ nm cfg, c = mkMcp nm cfg := by
  cases j with
  | none => simp [mcpScan] at h
  | some v =>
    simp only [mcpScan] at h
    split at h
    · split at h
      · simp only [List.mem_map] at h
        obtain ⟨p, _, hc⟩ := h
        exact ⟨p.1, p.2, hc.symm⟩
      · simp at h
    · simp at h

theorem mem_agentsSource {o : Option (List String)} {read : String → Option String}
    {c : Component} (h : c ∈ (agentsSource o read).1) :
    ∃ f ct, strEndsWith f ".md" = true ∧ read f = some ct ∧ c = mkAgent f ct := by
  cases o with
  | none => simp [agentsSource] at h
  | some files => exact mem_agentsScanFiles (by simpa [agentsSource] using h)

theorem mem_skillsSource {o : Option (List String)} {read : String → Option String}
    {c : Component} (h : c ∈ (skillsSource o read).1) :
    ∃ d ct, read d = some ct ∧ c = mkSkill d ct := by
  cases o with
  | none => simp [skillsSource] at h
  | some dirs => exact mem_skillsScanDirs (by simpa [skillsSource] using h)

theorem mem_commandsSource {o : Option (List String)} {read : String → Option String}
    {c : Component} (h : c ∈ (commandsSource o read).1) :
    ∃ f ct, strEndsWith f ".md" = true ∧ read f = some ct ∧ c = mkCommand f ct := by
  cases o with
  | none => simp [commandsSource] at h
  | some files => exact mem_commandsScanFiles (by simpa [commandsSource] using h)

/-- Every catalog entry comes from one of the four scans. -/
theorem mem_generateData {inp : BuildInput} {c : Component} (h : c ∈ generateData inp) :
    (∃ f ct, strEndsWith f ".md" = true ∧ inp.agentRead f = some ct ∧ c = mkAgent f ct) ∨
    (∃ d ct, inp.skillRead d = some ct ∧ c = mkSkill d ct) ∨
    (∃ f ct, strEndsWith f ".md" = true ∧ inp.commandRead f = some ct ∧ c = mkCommand f ct) ∨
    (∃ nm cfg, c = mkMcp nm cfg) := by
  unfold generateData generateDataFull at h
  simp only [List.mem_append] at h
  rcases h with ((h | h) | h) | h
  · exact Or.inl (mem_agentsSource h)
  · exact Or.inr (Or.inl (mem_skillsSource h))
  · exact Or.inr (Or.inr (Or.inl (mem_commandsSource h)))
  · exact Or.inr (Or.inr (Or.inr (mem_mcpScan h)))

/-- The scan finds no match exactly when no start position matches. -/
theorem firstMatchAux_none_iff (s : List Char) :
    firstMatchAux s = none ↔ ∀ i, matchAt (s.drop i) = none := by
  induction s with
  | nil =>
    constructor
    · intro _ i
      rw [List.drop_nil]
      rfl
    · intro _
      rfl
  | cons c cs ih =>
    constructor
    · intro h i
      rw [firstMatchAux] at h
      cases hm : matchAt (c :: cs) with
      | some v => rw [hm] at h; simp [Option.orElse] at h
      | none =>
        rw [hm] at h
        simp only [Option.orElse] at h
        cases i with
        | zero => rw [List.drop_zero]; exact hm
        | succ j => rw [List.drop_succ_cons]; exact (ih.mp h) j
    · intro h
      have h0 := h 0
      rw [List.drop_zero] at h0
      rw [firstMatchAux, h0]
      simp only [Option.orElse]
      exact ih.mpr (fun j => by have hj := h (j + 1); rwa [List.drop_succ_cons] at hj)

/-- A found match is the leftmost one: it occurs at a position before which
every position fails. -/
theorem firstMatchAux_some {s : List Char} {cap : String}
    (h : firstMatchAux s = some cap) :
    ∃ i, matchAt (s.drop i) = some cap ∧ ∀ j < i, matchAt (s.drop j) = none := by
  induction s with
  | nil => simp [firstMatchAux] at h
  | cons c cs ih =>
    rw [firstMatchAux] at h
    cases hm : matchAt (c :: cs) with
    | some v =>
      rw [hm] at h
      simp only [Option.orElse] at h
      refine ⟨0, ?_, fun j hj => absurd hj (Nat.not_lt_zero j)⟩
      rw [List.drop_zero, hm, h]
    | none =>
      rw [hm] at h
      simp only [Option.orElse] at h
      obtain ⟨i, hi, hj⟩ := ih h
      refine ⟨i + 1, ?_, fun j hjlt => ?_⟩
      · rw [List.drop_succ_cons]; exact hi
      · cases j with
        | zero => rw [List.drop_zero]; exact hm
        | succ j2 => rw [List.drop_succ_cons]; exact hj j2 (Nat.lt_of_succ_lt_succ hjlt)

/-- The description actually stored (`descMatch?.[1] || dflt`) satisfies the
leftmost-match specification. -/
theorem orDefault_descSpec (text dflt : String) :
    descSpec text dflt (orDefault (descMatch text) dflt) := by
  unfold descSpec orDefault descMatch
  cases h : firstMatchAux text.data with
  | none => exact Or.inr ⟨(firstMatchAux_none_iff text.data).mp h, rfl⟩
  | some cap =>
    obtain ⟨i, hi, hj⟩ := firstMatchAux_some h
    exact Or.inl ⟨i, cap, hi, hj, by by_cases hc : cap = "" <;> simp [hc]⟩

/-- The markdown scans contribute no `mcp`-typed entry. -/
theorem filter_mcp_agentsSource (o : Option (List String)) (read : String → Option String) :
    (agentsSource o read).1.filter (fun c => decide (c.type = .mcp)) = [] := by
  rw [List.filter_eq_nil_iff]
  intro a ha
  obtain ⟨f, ct, _, _, rfl⟩ := mem_agentsSource ha
  simp [mkAgent]

theorem filter_mcp_skillsSource (o : Option (List String)) (read : String → Option String) :
    (skillsSource o read).1.filter (fun c => decide (c.type = .mcp)) = [] := by
  rw [List.filter_eq_nil_iff]
  intro a ha
  obtain ⟨d, ct, _, rfl⟩ := mem_skillsSource ha
  simp [mkSkill]

theorem filter_mcp_commandsSource (o : Option (List String)) (read : String → Option String) :
    (commandsSource o read).1.filter (fun c => decide (c.type = .mcp)) = [] := by
  rw [List.filter_eq_nil_iff]
  intro a ha
  obtain ⟨f, ct, _, _, rfl⟩ := mem_commandsSource ha
  simp [mkCommand]

theorem filter_mcp_mcpScan (j : Option JsonVal) :
    (mcpScan j).1.filter (fun c => decide (c.type = .mcp)) = (mcpScan j).1 := by
  rw [List.filter_eq_self]
  intro a ha
  obtain ⟨nm, cfg, rfl⟩ := mem_mcpScan ha
  simp [mkMcp]

/-- The skills loop is per-directory fault tolerant: it keeps exactly the
readable directories, in listing order. -/
theorem skillsScanDirs_eq_filterMap (dirs : List String) (read : String → Option String) :
    skillsScanDirs dirs read = dirs.filterMap (fun d => (read d).map (mkSkill d)) := by
  induction dirs with
  | nil => rfl
  | cons d ds ih =>
    cases hr : read d with
    | some ct => simp [skillsScanDirs, hr, List.filterMap_cons, ih]
    | none => simp [skillsScanDirs, hr, List.filterMap_cons, ih]

/-- The agents loop aborts at the first unreadable `.md` file: entries
already produced are kept, the remaining files are dropped, and a single log
line is emitted. -/
theorem agentsScanFiles_abort (pre : List String) (f : String) (post : List String)
    (read : String → Option String)
    (hpre : ∀ g ∈ pre, strEndsWith g ".md" = true → (read g).isSome = true)
    (hf : strEndsWith f ".md" = true) (hr : read f = none) :
    agentsScanFiles (pre ++ f :: post) read =
      (pre.filterMap
        (fun g => if strEndsWith g ".md" then (read g).map (mkAgent g) else none),
       ["Error reading agents:"]) := by
  induction pre with
  | nil => simp [agentsScanFiles, hf, hr]
  | cons g gs ih =>
    have ihgs := ih (fun x hx h2 => hpre x (List.mem_cons_of_mem g hx) h2)
    by_cases hg : strEndsWith g ".md"
    · obtain ⟨ct, hct⟩ := Option.isSome_iff_exists.mp (hpre g (List.mem_cons_self g gs) hg)
      simp [agentsScanFiles, hg, hct, List.filterMap_cons, ihgs]
    · simp [agentsScanFiles, hg, List.filterMap_cons, ihgs]

/-- Same abort shape for the commands loop. -/
theorem commandsScanFiles_abort (pre : List String) (f : String) (post : List String)
    (read : String → Option String)
    (hpre : ∀ g ∈ pre, strEndsWith g ".md" = true → (read g).isSome = true)
    (hf : strEndsWith f ".md" = true) (hr : read f = none) :
    commandsScanFiles (pre ++ f :: post) read =
      (pre.filterMap
        (fun g => if strEndsWith g ".md" then (read g).map (mkCommand g) else none),
       ["Error reading commands:"]) := by
  induction pre with
  | nil => simp [commandsScanFiles, hf, hr]
  | cons g gs ih =>
    have ihgs := ih (fun x hx h2 => hpre x (List.mem_cons_of_mem g hx) h2)
    by_cases hg : strEndsWith g ".md"
    · obtain ⟨ct, hct⟩ := Option.isSome_iff_exists.mp (hpre g (List.mem_cons_self g gs) hg)
      simp [commandsScanFiles, hg, hct, List.filterMap_cons, ihgs]
    · simp [commandsScanFiles, hg, List.filterMap_cons, ihgs]

/-! ## Claim theorems -/

/-- C1: for every non-empty path `p` and non-empty content `c`,
`saveItemContent` attempts the write at `join(projectRoot, p)` with
`projectRoot = resolve(cwd, '..')`; the outcome is fully determined by the
filesystem's writability at that one location — the right-hand side mentions
no catalog and no containment check, so success is independent of catalog
membership and of whether the resolved location stays inside the root. -/
theorem save_writes_at_joined_path (cwd p c : String) (fs : FS)
    (writable : String → Bool) (hp : p ≠ "") (hc : c ≠ "") :
    saveItemContent cwd (some p) (some c) fs writable =
      (if writable (joinAbs (parentDir cwd) p) then
        (fun q => if q = joinAbs (parentDir cwd) p then some c else fs q,
          .ok ⟨true, p⟩)
       else (fs, .error ⟨500, "Failed to save file"⟩)) := by
  unfold saveItemContent
  simp only [hp, if_neg, if_false]
  cases h : writable (joinAbs (parentDir cwd) p) <;> simp [h, hp, hc]

/-- Witness for C1: a path that escapes the project root and belongs to no
catalog entry is still written, at `join(root, p) = /etc/passwd`. -/
theorem save_writes_at_joined_path_witness :
    ("../../etc/passwd" ≠ "" ∧ "pwned" ≠ "") ∧
    (saveItemContent "/repo/dashboard" (some "../../etc/passwd") (some "pwned")
        (fun _ => none) (fun _ => true)).2 = .ok ⟨true, "../../etc/passwd"⟩ ∧
    contained "/repo"
      (joinAbs (parentDir "/repo/dashboard") "../../etc/passwd") = false ∧
    cat1.all (fun c => decide (c.path ≠ "../../etc/passwd")) = true := by
  refine ⟨⟨by decide, by decide⟩, ?_, by decide, by decide⟩
  rw [save_writes_at_joined_path "/repo/dashboard" "../../etc/passwd" "pwned"
    (fun _ => none) (fun _ => true) (by decide) (by decide)]
  rfl

/-- C3: `getItemContent` rejects a missing/empty path with 400, answers an
exact catalog-path match with the catalog's cached content (it takes no
filesystem argument at all: no live re-read), and returns 404 whenever no
entry's `path` equals the request verbatim (no fuzzy or prefix matching). -/
theorem getItemContent_exact_match (cat : List Component) (p : String) :
    (getItemContent cat (some "") = .error ⟨400, "Path required"⟩) ∧
    (getItemContent cat none = .error ⟨400, "Path required"⟩) ∧
    (p ≠ "" → (∀ c ∈ cat, c.path ≠ p) →
      getItemContent cat (some p) = .error ⟨404, "Component not found"⟩) ∧
    (p ≠ "" → ∀ c, c ∈ cat → c.path = p →
      ∃ c', c' ∈ cat ∧ c'.path = p ∧
        getItemContent cat (some p) = .ok ⟨p, c'.content⟩) := by
  refine ⟨rfl, rfl, ?_, ?_⟩
  · intro hp hall
    unfold getItemContent
    simp only [hp, if_neg, if_false]
    have : cat.find? (fun c => decide (c.path = p)) = none := by
      rw [List.find?_eq_none]
      intro x hx
      simpa using hall x hx
    rw [this]
  · intro hp c hc hcp
    unfold getItemContent
    simp only [hp, if_neg, if_false]
    cases hfind : cat.find? (fun c => decide (c.path = p)) with
    | none =>
      exact absurd hcp (by simpa using List.find?_eq_none.mp hfind c hc)
    | some c' =>
      refine ⟨c', List.mem_of_find?_eq_some hfind, ?_, by simp⟩
      simpa using List.find?_some hfind

/-- Witness for C3 on a concrete catalog: exact match served from the cache,
near-miss path rejected with 404. -/
theorem getItemContent_exact_match_witness :
    (∃ c', c' ∈ cat1 ∧ c'.path = "agents/a.md" ∧
      getItemContent cat1 (some "agents/a.md") = .ok ⟨"agents/a.md", c'.content⟩) ∧
    getItemContent cat1 (some "agents/a") = .error ⟨404, "Component not found"⟩ := by
  constructor
  · exact (getItemContent_exact_match cat1 "agents/a.md").2.2.2 (by decide)
      { id := "agent-a", name := "A", type := .agent, description := "d1"
        path := "agents/a.md", content := "AAA" } (by decide) (by decide)
  · exact (getItemContent_exact_match cat1 "agents/a").2.2.1 (by decide) (by decide)

/-- C4: a successful save followed by a direct filesystem read of the
resolved target returns exactly the saved content; a missing or empty
`content` is rejected with 400 (`Content required`) and leaves the
filesystem untouched. -/
theorem save_roundtrip :
    (∀ (cwd p c : String) (fs : FS) (writable : String → Bool),
      p ≠ "" → c ≠ "" → writable (joinAbs (parentDir cwd) p) = true →
        (saveItemContent cwd (some p) (some c) fs writable).2 = .ok ⟨true, p⟩ ∧
        (saveItemContent cwd (some p) (some c) fs writable).1
          (joinAbs (parentDir cwd) p) = some c) ∧
    (∀ (cwd p : String) (fs : FS) (writable : String → Bool), p ≠ "" →
      saveItemContent cwd (some p) none fs writable =
        (fs, .error ⟨400, "Content required"⟩)) ∧
    (∀ (cwd p : String) (fs : FS) (writable : String → Bool), p ≠ "" →
      saveItemContent cwd (some p) (some "") fs writable =
        (fs, .error ⟨400, "Content required"⟩)) := by
  refine ⟨?_, ?_, ?_⟩
  · intro cwd p c fs writable hp hc hw
    rw [save_writes_at_joined_path cwd p c fs writable hp hc]
    simp [hw]
  · intro cwd p fs writable hp
    unfold saveItemContent
    simp [hp]
  · intro cwd p fs writable hp
    unfold saveItemContent
    simp [hp]

/-- Witness for C4: concrete save then read-back, and concrete rejection of
the empty/missing content with no write. -/
theorem save_roundtrip_witness :
    (saveItemContent "/repo/dashboard" (some "agents/a.md") (some "new text")
        (fun _ => none) (fun _ => true)).1
      (joinAbs (parentDir "/repo/dashboard") "agents/a.md") = some "new text" ∧
    (saveItemContent "/repo/dashboard" (some "agents/a.md") (some "")
        (fun _ => none) (fun _ => true)).2 =
      .error ⟨400, "Content required"⟩ := by
  constructor
  · exact (save_roundtrip.1 "/repo/dashboard" "agents/a.md" "new text"
      (fun _ => none) (fun _ => true) (by decide) (by decide) rfl).2
  · rw [save_roundtrip.2.2 "/repo/dashboard" "agents/a.md"
      (fun _ => none) (fun _ => true) (by decide)]

/-- C5: a successful save through the PUT handler changes only the
filesystem: the loaded catalog is unchanged, the detail endpoint still
serves the previously cached content (not the newly written one when they
differ), and the list output is unchanged. -/
theorem save_preserves_catalog (cwd p newC : String) (st : ServerState)
    (writable : String → Bool) (entry : Component)
    (hfind : st.catalog.find? (fun c => decide (c.path = p)) = some entry)
    (hp : p ≠ "") (hc : newC ≠ "")
    (hw : writable (joinAbs (parentDir cwd) p) = true) :
    ((handlePut cwd st (some p) (some newC) writable).2 = .ok ⟨true, p⟩) ∧
    ((handlePut cwd st (some p) (some newC) writable).1.catalog = st.catalog) ∧
    (handleGet (handlePut cwd st (some p) (some newC) writable).1 (some p) =
      .ok ⟨p, entry.content⟩) ∧
    (entry.content ≠ newC →
      handleGet (handlePut cwd st (some p) (some newC) writable).1 (some p) ≠
        .ok ⟨p, newC⟩) ∧
    (handleList (handlePut cwd st (some p) (some newC) writable).1 =
      handleList st) := by
  have hput : (handlePut cwd st (some p) (some newC) writable).1.catalog = st.catalog := rfl
  have hget : handleGet (handlePut cwd st (some p) (some newC) writable).1 (some p) =
      .ok ⟨p, entry.content⟩ := by
    show getItemContent st.catalog (some p) = .ok ⟨p, entry.content⟩
    unfold getItemContent
    simp only [hp, if_neg, if_false, hfind]
  refine ⟨?_, hput, hget, ?_, rfl⟩
  · show (saveItemContent cwd (some p) (some newC) st.fs writable).2 = .ok ⟨true, p⟩
    rw [save_writes_at_joined_path cwd p newC st.fs writable hp hc]
    simp [hw]
  · intro hne hcontra
    rw [hget] at hcontra
    exact hne (by simpa using hcontra)

/-- Witness for C5: saving `"new text"` over the file behind `agents/a.md`
leaves the stale catalog serving the old cached `"AAA"`. -/
theorem save_preserves_catalog_witness :
    (handleGet (handlePut "/repo/dashboard" ⟨fun _ => none, cat1⟩
        (some "agents/a.md") (some "new text") (fun _ => true)).1
      (some "agents/a.md") = .ok ⟨"agents/a.md", "AAA"⟩) ∧
    (handleGet (handlePut "/repo/dashboard" ⟨fun _ => none, cat1⟩
        (some "agents/a.md") (some "new text") (fun _ => true)).1
      (some "agents/a.md") ≠ .ok ⟨"agents/a.md", "new text"⟩) := by
  have h := save_preserves_catalog "/repo/dashboard" "agents/a.md" "new text"
    ⟨fun _ => none, cat1⟩ (fun _ => true)
    { id := "agent-a", name := "A", type := .agent, description := "d1"
      path := "agents/a.md", content := "AAA" }
    (by decide) (by decide) (by decide) rfl
  exact ⟨h.2.2.1, h.2.2.2.1 (by decide)⟩

/-- C6: the list endpoint returns one entry per catalog entry, in catalog
order, carrying the `id`, `name`, `type`, `description` and `path` of the
corresponding entry; its output type `ComponentMeta` has no `content`
field. -/
theorem listItems_strips_content (cat : List Component) :
    (listItems cat).length = cat.length ∧
    ∀ (i : Nat) (h : i < cat.length) (h2 : i < (listItems cat).length),
      ((listItems cat).get ⟨i, h2⟩).id = (cat.get ⟨i, h⟩).id ∧
      ((listItems cat).get ⟨i, h2⟩).name = (cat.get ⟨i, h⟩).name ∧
      ((listItems cat).get ⟨i, h2⟩).type = (cat.get ⟨i, h⟩).type ∧
      ((listItems cat).get ⟨i, h2⟩).description = (cat.get ⟨i, h⟩).description ∧
      ((listItems cat).get ⟨i, h2⟩).path = (cat.get ⟨i, h⟩).path := by
  refine ⟨by simp [listItems], ?_⟩
  intro i h h2
  simp [listItems, stripContent]

/-- Witness for C6 on a concrete catalog. -/
theorem listItems_strips_content_witness :
    (listItems cat1).length = cat1.length ∧
    ((listItems cat1).get ⟨0, by decide⟩).path = (cat1.get ⟨0, by decide⟩).path := by
  exact ⟨(listItems_strips_content cat1).1,
    ((listItems_strips_content cat1).2 0 (by decide) (by decide)).2.2.2.2⟩

/-- C2 counterexample: with agent files `a.md` (valid), `bad.md`
(unreadable), `c.md` (valid) there are N = 2 valid agent items, but the
build produces only 1 agent entry (the abort drops `c.md`); and although
the input holds two invalid items (`bad.md` and the skill directory `bad`),
only one log line is emitted (none for the skill). -/
theorem build_per_item_tolerance_cex :
    ((["a.md", "bad.md", "c.md"].filter
        (fun f => strEndsWith f ".md" && (inp2.agentRead f).isSome)).length = 2) ∧
    ((generateData inp2).filter (fun c => decide (c.type = .agent))).length = 1 ∧
    ((["good", "bad"].filter (fun d => (inp2.skillRead d).isSome)).length = 1) ∧
    ((generateData inp2).filter (fun c => decide (c.type = .skill))).length = 1 ∧
    (generateDataFull inp2).2 = ["Error reading agents:"] := by
  decide

/-- C2 (amended): the skills scan is per-item fault tolerant (an unreadable
`SKILL.md` skips only that directory, with no log line), but for agents and
commands the first unreadable `.md` file aborts the remainder of that kind's
scan — entries already produced are kept and a single log line is emitted —
so only N' entries survive, where N' counts the valid files before the first
invalid one. -/
theorem build_fault_tolerance_amended :
    (∀ (dirs : List String) (read : String → Option String),
      skillsScanDirs dirs read = dirs.filterMap (fun d => (read d).map (mkSkill d))) ∧
    (∀ (pre : List String) (f : String) (post : List String)
        (read : String → Option String),
      (∀ g ∈ pre, strEndsWith g ".md" = true → (read g).isSome = true) →
      strEndsWith f ".md" = true → read f = none →
      agentsScanFiles (pre ++ f :: post) read =
        (pre.filterMap
          (fun g => if strEndsWith g ".md" then (read g).map (mkAgent g) else none),
         ["Error reading agents:"])) ∧
    (∀ (pre : List String) (f : String) (post : List String)
        (read : String → Option String),
      (∀ g ∈ pre, strEndsWith g ".md" = true → (read g).isSome = true) →
      strEndsWith f ".md" = true → read f = none →
      commandsScanFiles (pre ++ f :: post) read =
        (pre.filterMap
          (fun g => if strEndsWith g ".md" then (read g).map (mkCommand g) else none),
         ["Error reading commands:"])) :=
  ⟨skillsScanDirs_eq_filterMap, agentsScanFiles_abort, commandsScanFiles_abort⟩

/-- Witness for the amended C2, on the mixed input: the agents scan keeps
`a.md`, drops `c.md`, logs once; the skills scan keeps `good` and skips
`bad`. -/
theorem build_fault_tolerance_amended_witness :
    agentsScanFiles (["a.md"] ++ "bad.md" :: ["c.md"]) inp2.agentRead =
      ([mkAgent "a.md" "A"], ["Error reading agents:"]) ∧
    skillsScanDirs ["good", "bad"] inp2.skillRead = [mkSkill "good" "S"] := by
  constructor
  · rw [build_fault_tolerance_amended.2.1 ["a.md"] "bad.md" ["c.md"] inp2.agentRead
      (by decide) (by decide) (by decide)]
    decide
  · rw [build_fault_tolerance_amended.1 ["good", "bad"] inp2.skillRead]
    decide

/-- C7: with `agents/` holding exactly `code-reviewer.md`, whose text carries
the line `## Purpose: Reviews code for bugs`, the build yields exactly one
catalog item with the derived id, name, description, path and the full file
text as content. -/
theorem build_agent_scenario :
    generateData inp7 =
      [{ id := "agent-code-reviewer", name := "Code reviewer", type := .agent,
         description := "Reviews code for bugs", path := "agents/code-reviewer.md",
         content := c0text }] := by
  decide

/-- C8 counterexample: the file text `"Intro ## Purpose: hacks"` has no
*line* matching `## Purpose` (the heading occurs only mid-line), so the
original claim predicts the type default `"AI agent for specialized tasks"`;
the code's unanchored regex matches mid-line and stores `"hacks"`. -/
theorem description_midline_cex :
    (generateData inpMid).map (fun c => c.description) = ["hacks"] ∧
    specLineDesc "Intro ## Purpose: hacks" = none ∧
    "hacks" ≠ "AI agent for specialized tasks" := by
  decide

/-- C8 (amended): for every agent, skill and command catalog item the
description is the capture of the *leftmost occurrence anywhere in the text*
(mid-line occurrences included) of `##` + whitespace + `Purpose`/`Description`
(case-insensitive) + colon/whitespace run + a nonempty non-newline capture,
and the type-specific default when that pattern matches at no position. -/
theorem description_first_match_amended (inp : BuildInput) (c : Component)
    (h : c ∈ generateData inp) :
    (c.type = .agent → descSpec c.content "AI agent for specialized tasks" c.description) ∧
    (c.type = .skill → descSpec c.content "Pattern/skill for development" c.description) ∧
    (c.type = .command → descSpec c.content "Scaffold command" c.description) := by
  rcases mem_generateData h with ⟨f, ct, _, _, rfl⟩ | ⟨d, ct, _, rfl⟩ |
    ⟨f, ct, _, _, rfl⟩ | ⟨nm, cfg, rfl⟩
  · exact ⟨fun _ => orDefault_descSpec ct _, fun ht => by simp [mkAgent] at ht,
      fun ht => by simp [mkAgent] at ht⟩
  · exact ⟨fun ht => by simp [mkSkill] at ht, fun _ => orDefault_descSpec ct _,
      fun ht => by simp [mkSkill] at ht⟩
  · exact ⟨fun ht => by simp [mkCommand] at ht, fun ht => by simp [mkCommand] at ht,
      fun _ => orDefault_descSpec ct _⟩
  · exact ⟨fun ht => by simp [mkMcp] at ht, fun ht => by simp [mkMcp] at ht,
      fun ht => by simp [mkMcp] at ht⟩

/-- Witness for the amended C8 at the scenario build. -/
theorem description_first_match_amended_witness :
    (mkAgent "code-reviewer.md" c0text ∈ generateData inp7) ∧
    descSpec (mkAgent "code-reviewer.md" c0text).content
      "AI agent for specialized tasks"
      (mkAgent "code-reviewer.md" c0text).description :=
  ⟨by decide,
    (description_first_match_amended inp7 (mkAgent "code-reviewer.md" c0text)
      (by decide)).1 rfl⟩

/-- C9: the MCP end-to-end scenario produces exactly the expected item (the
content is the 2-space-indented `JSON.stringify` of the server's config
object); a non-http entry gets the literal `"stdio server"`; and in general
the `mcp`-typed slice of any build equals the MCP scan's output, every item
of which carries the `HTTP: url` / `"stdio server"` description rule. -/
theorem build_mcp_scenario :
    (generateData inp9 =
      [{ id := "mcp-docs", name := "docs", type := .mcp,
         description := "HTTP: https://x", path := ".mcp.json",
         content := "\x7b\n  \"type\": \"http\",\n  \"url\": \"https://x\"\n\x7d" }]) ∧
    ((generateData inp9s).map (fun c => c.description) = ["stdio server"]) ∧
    (∀ inp : BuildInput,
      (generateData inp).filter (fun c => decide (c.type = .mcp)) =
        (mcpScan inp.mcpParsed).1) := by
  refine ⟨by decide, by decide, fun inp => ?_⟩
  show (generateDataFull inp).1.filter _ = _
  unfold generateDataFull
  simp only [List.filter_append, filter_mcp_agentsSource, filter_mcp_skillsSource,
    filter_mcp_commandsSource, filter_mcp_mcpScan, List.nil_append]

/-- C10: every `mcp`-typed catalog item carries the shared path `.mcp.json`,
and for any catalog in which an entry `c` is preceded only by entries whose
`path` differs from `p`, the detail endpoint answers `p` with `c`'s content —
the earliest entry in catalog order wins, so the content of every later
entry with the same path is unreachable. -/
theorem duplicate_path_first_wins :
    (∀ (inp : BuildInput) (c : Component),
      c ∈ generateData inp → c.type = .mcp → c.path = ".mcp.json") ∧
    (∀ (pre post : List Component) (c : Component) (p : String),
      c.path = p → p ≠ "" → (∀ c2 ∈ pre, c2.path ≠ p) →
      getItemContent (pre ++ c :: post) (some p) = .ok ⟨p, c.content⟩) := by
  constructor
  · intro inp c h htype
    rcases mem_generateData h with ⟨f, ct, _, _, rfl⟩ | ⟨d, ct, _, rfl⟩ |
      ⟨f, ct, _, _, rfl⟩ | ⟨nm, cfg, rfl⟩
    · simp [mkAgent] at htype
    · simp [mkSkill] at htype
    · simp [mkCommand] at htype
    · rfl
  · intro pre post c p hcp hp hpre
    unfold getItemContent
    simp only [hp, if_neg, if_false]
    have hfind : (pre ++ c :: post).find? (fun x => decide (x.path = p)) = some c := by
      induction pre with
      | nil => simp [List.find?_cons, hcp]
      | cons a as ih =>
        have ha : (decide (a.path = p)) = false :=
          decide_eq_false (hpre a (List.mem_cons_self a as))
        rw [List.cons_append, List.find?_cons, ha]
        exact ih (fun x hx => hpre x (List.mem_cons_of_mem a hx))
    rw [hfind]

/-- Witness for C10: in a catalog with two `.mcp.json` entries the first
one's content is served, and the second entry's differing content exists but
is not returned. -/
theorem duplicate_path_first_wins_witness :
    getItemContent cat2 (some ".mcp.json") = .ok ⟨".mcp.json", "first"⟩ ∧
    (cat2.get ⟨1, by decide⟩).content = "second" ∧
    getItemContent cat2 (some ".mcp.json") ≠ .ok ⟨".mcp.json", "second"⟩ := by
  have h := duplicate_path_first_wins.2 []
    [{ id := "mcp-two", name := "two", type := .mcp, description := "stdio server"
       path := ".mcp.json", content := "second" }]
    { id := "mcp-one", name := "one", type := .mcp, description := "stdio server"
      path := ".mcp.json", content := "first" }
    ".mcp.json" rfl (by decide) (by simp)
  have h2 : getItemContent cat2 (some ".mcp.json") = .ok ⟨".mcp.json", "first"⟩ := h
  refine ⟨h2, by decide, ?_⟩
  rw [h2]
  intro hc
  have h3 := Except.ok.inj hc
  simp at h3

end Codecave
